import Mathlib

/-!
Verification development for the cosnarks-zksaas blueprint.

This file gives a shallow embedding, in Lean 4, of the parts of the
repository relevant to the frozen claims:

* the SHA-256 hash (FIPS 180-4) used through the `sha2` crate, modelled as a
  pure function on byte lists (bytes are `Nat` below 256, words `Nat` below
  2^32 with explicit `% 2^32` where overflow matters);
* the bincode encoding of `RevealMsg` (default bincode configuration:
  fixed eight-byte little-endian length prefix followed by the UTF-8 bytes,
  for each of the two string-like fields, in declaration order);
* `parse_dns_name` and the `u16` string parsing it relies on
  (`src/cosnarks-zksaas-blueprint-lib/src/p2p/mod.rs`);
* the verification phase of `mpc_config_exchange` (same file), modelled over
  an explicit transcript of delivered commit and reveal messages;
* `generate_circuit_id` and `validate_backend_compatibility`
  (`src/cosnarks-zksaas-blueprint-lib/src/jobs/register_circuit.rs`);
* `CircuitStore.store_circuit` / `get_circuit_info` / `get_artifact_data`
  and friends (`src/cosnarks-zksaas-blueprint-lib/src/state.rs`), with the
  sled tree and the filesystem modelled as association lists;
* `MpcNetworkManager.establish_mpc_session`
  (`src/cosnarks-zksaas-blueprint-lib/src/network.rs`), both as a sequential
  function and as an interleaved two-task execution for the concurrency
  claims.
-/

namespace ZkSaas

/-! ## Bytes and 32-bit words -/

/-- Truncate to a 32-bit word, the implicit wrapping of Rust `u32` SHA-256
arithmetic. -/
def w32 (x : Nat) : Nat := x % 4294967296

/-- Right rotation of a 32-bit word by `n` bits. -/
def rotr (n x : Nat) : Nat := w32 (w32 x / 2 ^ n + x * 2 ^ (32 - n))

/-- Logical right shift of a 32-bit word. -/
def shr (n x : Nat) : Nat := w32 x / 2 ^ n

/-- Bitwise complement on 32-bit words. -/
def not32 (x : Nat) : Nat := 4294967295 - w32 x

/-! ## SHA-256 (FIPS 180-4), as computed by the `sha2` crate -/

/-- SHA-256 round constants (FIPS 180-4, written in decimal). -/
def K256 : List Nat :=
  [1116352408, 1899447441, 3049323471, 3921009573, 961987163, 1508970993,
   2453635748, 2870763221, 3624381080, 310598401, 607225278, 1426881987,
   1925078388, 2162078206, 2614888103, 3248222580, 3835390401, 4022224774,
   264347078, 604807628, 770255983, 1249150122, 1555081692, 1996064986,
   2554220882, 2821834349, 2952996808, 3210313671, 3336571891, 3584528711,
   113926993, 338241895, 666307205, 773529912, 1294757372, 1396182291,
   1695183700, 1986661051, 2177026350, 2456956037, 2730485921, 2820302411,
   3259730800, 3345764771, 3516065817, 3600352804, 4094571909, 275423344,
   430227734, 506948616, 659060556, 883997877, 958139571, 1322822218,
   1537002063, 1747873779, 1955562222, 2024104815, 2227730452, 2361852424,
   2428436474, 2756734187, 3204031479, 3329325298]

/-- SHA-256 upper-case sigma 0. -/
def bSig0 (x : Nat) : Nat := Nat.xor (rotr 2 x) (Nat.xor (rotr 13 x) (rotr 22 x))

/-- SHA-256 upper-case sigma 1. -/
def bSig1 (x : Nat) : Nat := Nat.xor (rotr 6 x) (Nat.xor (rotr 11 x) (rotr 25 x))

/-- SHA-256 lower-case sigma 0. -/
def sSig0 (x : Nat) : Nat := Nat.xor (rotr 7 x) (Nat.xor (rotr 18 x) (shr 3 x))

/-- SHA-256 lower-case sigma 1. -/
def sSig1 (x : Nat) : Nat := Nat.xor (rotr 17 x) (Nat.xor (rotr 19 x) (shr 10 x))

/-- SHA-256 choice function. -/
def ch (x y z : Nat) : Nat := Nat.xor (Nat.land x y) (Nat.land (not32 x) z)

/-- SHA-256 majority function. -/
def maj (x y z : Nat) : Nat :=
  Nat.xor (Nat.land x y) (Nat.xor (Nat.land x z) (Nat.land y z))

/-- The eight-word SHA-256 working state. -/
structure H8 where
  a : Nat
  b : Nat
  c : Nat
  d : Nat
  e : Nat
  f : Nat
  g : Nat
  h : Nat

/-- SHA-256 initial hash value (FIPS 180-4, written in decimal). -/
def sha256IV : H8 :=
  ⟨1779033703, 3144134277, 1013904242, 2773480762,
   1359893119, 2600822924, 528734635, 1541459225⟩

/-- Message-schedule extension: `W` is kept most-recent-first, so
`W[t-2], W[t-7], W[t-15], W[t-16]` are at positions `1, 6, 14, 15`. -/
def schedExtend : Nat → List Nat → List Nat
  | 0, W => W
  | t + 1, W =>
    schedExtend t
      (w32 (sSig1 (W.getD 1 0) + W.getD 6 0 + sSig0 (W.getD 14 0) + W.getD 15 0) :: W)

/-- One SHA-256 round with round constant `k` and schedule word `w`. -/
def round256 (s : H8) (k w : Nat) : H8 :=
  let t1 := w32 (s.h + bSig1 s.e + ch s.e s.f s.g + k + w)
  let t2 := w32 (bSig0 s.a + maj s.a s.b s.c)
  ⟨w32 (t1 + t2), s.a, s.b, s.c, w32 (s.d + t1), s.e, s.f, s.g⟩

/-- Compress one 16-word block into the chaining state. -/
def compressBlock (H : H8) (block : List Nat) : H8 :=
  let W := (schedExtend 48 block.reverse).reverse
  let s := (K256.zip W).foldl (fun s kw => round256 s kw.1 kw.2) H
  ⟨w32 (H.a + s.a), w32 (H.b + s.b), w32 (H.c + s.c), w32 (H.d + s.d),
   w32 (H.e + s.e), w32 (H.f + s.f), w32 (H.g + s.g), w32 (H.h + s.h)⟩

/-- Group a byte list into big-endian 32-bit words, four bytes per word. -/
def bytesToWords : List Nat → List Nat
  | b0 :: b1 :: b2 :: b3 :: rest =>
    (b0 * 16777216 + b1 * 65536 + b2 * 256 + b3) :: bytesToWords rest
  | _ => []

/-- Big-endian eight-byte rendering of a natural number. -/
def be64 (n : Nat) : List Nat :=
  [n / 2 ^ 56 % 256, n / 2 ^ 48 % 256, n / 2 ^ 40 % 256, n / 2 ^ 32 % 256,
   n / 2 ^ 24 % 256, n / 2 ^ 16 % 256, n / 2 ^ 8 % 256, n % 256]

/-- Big-endian four-byte rendering of a 32-bit word. -/
def be32 (n : Nat) : List Nat :=
  [n / 16777216 % 256, n / 65536 % 256, n / 256 % 256, n % 256]

/-- SHA-256 padding: a 0x80 byte, zeros to 56 mod 64, then the bit length
as eight big-endian bytes. -/
def sha256Pad (msg : List Nat) : List Nat :=
  msg ++ [128] ++ List.replicate ((120 - (msg.length + 1) % 64) % 64) 0
      ++ be64 (8 * msg.length)

/-- Fold the compression function over successive 16-word blocks; the fuel
argument (instantiated with the word-list length) keeps the recursion
structural so that the function evaluates inside the kernel. -/
def foldBlocks : Nat → H8 → List Nat → H8
  | 0, H, _ => H
  | _ + 1, H, [] => H
  | fuel + 1, H, w :: ws =>
    foldBlocks fuel (compressBlock H ((w :: ws).take 16)) ((w :: ws).drop 16)

/-- SHA-256 of a byte list, as a 32-entry byte list. -/
def sha256 (msg : List Nat) : List Nat :=
  let ws := bytesToWords (sha256Pad msg)
  let H := foldBlocks ws.length sha256IV ws
  be32 H.a ++ be32 H.b ++ be32 H.c ++ be32 H.d ++
    be32 H.e ++ be32 H.f ++ be32 H.g ++ be32 H.h

/-! ## UTF-8 and the bincode encoding of `RevealMsg` -/

/-- UTF-8 encoding of one character (1 to 4 bytes). -/
def utf8Encode (c : Char) : List Nat :=
  let n := c.toNat
  if n < 128 then [n]
  else if n < 2048 then [192 + n / 64, 128 + n % 64]
  else if n < 65536 then [224 + n / 4096, 128 + n / 64 % 64, 128 + n % 64]
  else [240 + n / 262144, 128 + n / 4096 % 64, 128 + n / 64 % 64, 128 + n % 64]

/-- UTF-8 bytes of a string, what Rust `str::as_bytes` yields. -/
def strBytes (s : String) : List Nat := s.data.foldr (fun c acc => utf8Encode c ++ acc) []

/-- Little-endian eight-byte rendering of a `u64`, the bincode length prefix. -/
def le64 (n : Nat) : List Nat :=
  [n % 256, n / 2 ^ 8 % 256, n / 2 ^ 16 % 256, n / 2 ^ 24 % 256,
   n / 2 ^ 32 % 256, n / 2 ^ 40 % 256, n / 2 ^ 48 % 256, n / 2 ^ 56 % 256]

/-- `RevealMsg` from `p2p/mod.rs`: the configuration part a party commits to
and later reveals. `cert_path` is the `PathBuf` rendered as its string,
which is how serde serializes it. -/
structure RevealMsg where
  dns_name : String
  cert_path : String
deriving DecidableEq

/-- `CommitMsg` from `p2p/mod.rs`: a 32-byte commitment. -/
structure CommitMsg where
  commitment : List Nat
deriving DecidableEq

/-- The bincode (default configuration) encoding of a `RevealMsg`: each
string field is its `u64` little-endian byte length followed by its UTF-8
bytes, fields in declaration order. This is the byte string the Rust code
obtains from `bincode::serialize(&local_config)`. -/
def encodeReveal (r : RevealMsg) : List Nat :=
  le64 (strBytes r.dns_name).length ++ strBytes r.dns_name ++
    le64 (strBytes r.cert_path).length ++ strBytes r.cert_path

/-- The commitment the protocol computes for a reveal message:
`Sha256::digest(&bincode::serialize(&reveal))`. -/
def commitOf (r : RevealMsg) : List Nat := sha256 (encodeReveal r)

/-! ## Errors (`error.rs`), restricted to the variants the claims touch -/

/-- `Blame` from `p2p/mod.rs`: evidence against a misbehaving party,
carrying the transcript message identifiers of its commit and reveal. -/
structure Blame where
  guilty_party : Nat
  commitment_msg : Nat
  reveal_msg : Nat
deriving DecidableEq

/-- The `Error` enum of `error.rs`, restricted to the variants reachable in
the embedded code paths. -/
inductive Error where
  | CommitmentMismatch (guilty_parties : List Blame)
  | ConfigError (msg : String)
  | NetworkError (msg : String)
  | MpcProtocolError (msg : String)
  | InvalidInput (msg : String)
  | IncompatibleBackend (msg : String)
  | InvalidDnsName (msg : String)
  | IoError (msg : String)
deriving DecidableEq

deriving instance DecidableEq for Except

/-- Recognize an `InvalidDnsName` outcome. -/
def isInvalidDnsErr {α : Type} [DecidableEq α] : Except Error α → Bool
  | .error (.InvalidDnsName _) => true
  | _ => false

/-- Recognize a `CommitmentMismatch` outcome. -/
def isMismatchErr {α : Type} [DecidableEq α] : Except Error α → Bool
  | .error (.CommitmentMismatch _) => true
  | _ => false

/-! ## `parse_dns_name` (`p2p/mod.rs`, lines 161-174) -/

/-- `Address` from `mpc_net::config`: a hostname and a port. -/
structure Address where
  hostname : String
  port : Nat
deriving DecidableEq

/-- Rust `str::split(':')`: split a character list at every colon; `n`
colons yield `n + 1` (possibly empty) pieces. -/
def splitOnColon : List Char → List (List Char)
  | [] => [[]]
  | c :: rest =>
    match splitOnColon rest with
    | [] => [[]]
    | p :: ps => if c = ':' then [] :: p :: ps else (c :: p) :: ps

/-- Decimal value of a digit string. -/
def digitsVal (ds : List Char) : Nat :=
  ds.foldl (fun a c => a * 10 + (c.toNat - 48)) 0

/-- Rust `u16::from_str`: an optional leading plus sign, then one or more
ASCII digits, rejecting a value of 65536 or more (overflow). -/
def parseU16 (s : List Char) : Option Nat :=
  let digits := match s with
    | [] => []
    | c :: rest => if c = '+' then rest else c :: rest
  if digits.isEmpty then none
  else if digits.all Char.isDigit then
    let v := digitsVal digits
    if v < 65536 then some v else none
  else none

/-- `parse_dns_name` from `p2p/mod.rs`: accept exactly `hostname:port` with
a `u16` port, otherwise return an `InvalidDnsName` error. -/
def parse_dns_name (dns_name : String) : Except Error Address :=
  match splitOnColon dns_name.data with
  | [hostname, portStr] =>
    match parseU16 portStr with
    | some port => .ok ⟨⟨hostname⟩, port⟩
    | none => .error (.InvalidDnsName "Invalid port number")
  | _ =>
    .error (.InvalidDnsName ("Invalid format, expected hostname:port, got " ++ dns_name))

/-! ## `mpc_config_exchange` (`p2p/mod.rs`, lines 41-158)

The two broadcast rounds are modelled by their delivered transcript: for
each party index `j` below `n`, the commit message `commits j` with
transcript identifier `commitIds j`, and the reveal message `reveals j`
with identifier `revealIds j`. The verification loop iterates index order
`0..n-1`, exactly as `into_iter_indexed` does. -/

/-- `NetworkPartyConfig` from `mpc_net::config`: one verified entry of the
result map. -/
structure NetworkPartyConfig where
  id : Nat
  dns_name : Address
  cert_path : String
deriving DecidableEq

/-- Association-list lookup, the observable behaviour of the result
`HashMap`. -/
def lookupKey {α β : Type} [DecidableEq α] : List (α × β) → α → Option β
  | [], _ => none
  | (a, b) :: m, k => if a = k then some b else lookupKey m k

/-- One iteration of the verification loop of `mpc_config_exchange`: skip
self, blame on a commitment mismatch, otherwise parse the revealed DNS name
and record the verified configuration. -/
def exchangeStep (i : Nat) (commits : Nat → CommitMsg) (commitIds revealIds : Nat → Nat)
    (reveals : Nat → RevealMsg)
    (acc : List Blame × List (Nat × NetworkPartyConfig)) (j : Nat) :
    Except Error (List Blame × List (Nat × NetworkPartyConfig)) :=
  if j = i then pure acc
  else if (commits j).commitment = commitOf (reveals j) then do
    let addr ← parse_dns_name (reveals j).dns_name
    pure (acc.1, acc.2 ++ [(j, ⟨j, addr, (reveals j).cert_path⟩)])
  else
    pure (acc.1 ++ [⟨j, commitIds j, revealIds j⟩], acc.2)

/-- The verification phase of `mpc_config_exchange`: parse the local DNS
name, insert self, run the loop over all party indices, and either return
the collated map or fail with `CommitmentMismatch` carrying the blames. -/
def mpc_config_exchange (i n : Nat) (local_config : RevealMsg)
    (commits : Nat → CommitMsg) (commitIds : Nat → Nat)
    (reveals : Nat → RevealMsg) (revealIds : Nat → Nat) :
    Except Error (List (Nat × NetworkPartyConfig)) := do
  let local_address ← parse_dns_name local_config.dns_name
  let init : List (Nat × NetworkPartyConfig) :=
    [(i, ⟨i, local_address, local_config.cert_path⟩)]
  let res ← (List.range n).foldlM (exchangeStep i commits commitIds revealIds reveals) ([], init)
  if res.1.isEmpty then pure res.2
  else throw (.CommitmentMismatch res.1)

/-! ## Circuit registration (`jobs/register_circuit.rs`) -/

/-- `CircuitType` from `types.rs`. -/
inductive CircuitType where
  | Circom
  | Noir
deriving DecidableEq

/-- `ProvingBackend` from `types.rs`. -/
inductive ProvingBackend where
  | Groth16
  | Plonk
  | UltraHonk
deriving DecidableEq

/-- The derived `Debug` rendering of a `CircuitType`, which is what
`format!` interpolates in `generate_circuit_id`. -/
def CircuitType.debugRepr : CircuitType → String
  | .Circom => "Circom"
  | .Noir => "Noir"

/-- The derived `Debug` rendering of a `ProvingBackend`. -/
def ProvingBackend.debugRepr : ProvingBackend → String
  | .Groth16 => "Groth16"
  | .Plonk => "Plonk"
  | .UltraHonk => "UltraHonk"

/-- The incremental SHA-256 hasher of the `sha2` crate at the level of its
contract: the digest state after a sequence of `update` calls is the digest
of the accumulated bytes. -/
abbrev Sha256Hasher := List Nat

/-- `Sha256::new()`. -/
def sha256New : Sha256Hasher := []

/-- `Hasher::update`: feed more bytes. -/
def sha256Update (h : Sha256Hasher) (bytes : List Nat) : Sha256Hasher := h ++ bytes

/-- `Hasher::finalize`: the digest of all bytes fed so far. -/
def sha256Finalize (h : Sha256Hasher) : List Nat := sha256 h

/-- `generate_circuit_id` (`register_circuit.rs`, lines 148-158): hash the
name bytes, then the two `Debug` renderings, and finalize. -/
def generate_circuit_id (name : String) (circuit_type : CircuitType)
    (proving_backend : ProvingBackend) : List Nat :=
  sha256Finalize
    (sha256Update
      (sha256Update (sha256Update sha256New (strBytes name))
        (strBytes circuit_type.debugRepr))
      (strBytes proving_backend.debugRepr))

/-- `validate_backend_compatibility` (`register_circuit.rs`, lines
132-145): exactly the three listed pairs are compatible. -/
def validate_backend_compatibility (circuit_type : CircuitType)
    (proving_backend : ProvingBackend) : Except Error Unit :=
  match circuit_type, proving_backend with
  | .Circom, .Groth16 => .ok ()
  | .Circom, .Plonk => .ok ()
  | .Noir, .UltraHonk => .ok ()
  | _, _ =>
    .error (.IncompatibleBackend
      ("Proving backend " ++ proving_backend.debugRepr ++
        " is not compatible with circuit type " ++ circuit_type.debugRepr))

/-- Observable outcome of one `register_circuit` invocation: the result,
how many artifact downloads were attempted, and whether the store was
mutated. -/
structure RegisterOutcome where
  result : Except Error (List Nat)
  downloadsAttempted : Nat
  storeMutated : Bool
deriving DecidableEq

/-- The control flow of `register_circuit` (`register_circuit.rs`, lines
32-129) at the granularity the claims need: validation first, then the
circuit-id derivation, then the download (modelled by its outcome
`download`), and only then key generation and storage. Storage itself is
exercised through the `CircuitStore` model below; here it is recorded as
the `storeMutated` flag, which is exactly the claim-relevant observable
(nothing is downloaded or stored before validation succeeds). -/
def register_circuit (name : String) (circuit_type : CircuitType)
    (proving_backend : ProvingBackend) (download : Except Error (List Nat)) :
    RegisterOutcome :=
  match validate_backend_compatibility circuit_type proving_backend with
  | .error e => ⟨.error e, 0, false⟩
  | .ok _ =>
    let circuit_id := generate_circuit_id name circuit_type proving_backend
    match download with
    | .error e => ⟨.error e, 1, false⟩
    | .ok _ => ⟨.ok circuit_id, 1, true⟩

/-! ## The circuit store (`state.rs`)

`state.rs` handles the circuit id purely as a storage key (`id.as_bytes()`)
and a path component (`PathBuf::from(info.id.clone())`), so the model
carries it as the key string. Paths are lists of components; `file_name` is
the last component (the `..`/root special cases of Rust `Path::file_name`
are not exercised by the claims). The sled tree and the artifacts directory
are association lists; bincode round-tripping of the metadata record is the
serialization contract and is modelled as storing the record itself. -/

/-- `CircuitInfo` from `types.rs`, with paths as component lists and the id
as the storage key string. -/
structure CircuitInfo where
  id : String
  name : String
  circuit_type : CircuitType
  proving_backend : ProvingBackend
  artifact_path : List String
  proving_key_path : List String
  verification_key_path : List String
  verifier_address : Option (List Nat)
deriving DecidableEq

/-- Rust `Path::file_name`: the final component. -/
def file_name (p : List String) : Option String := p.getLast?

/-- The state owned by a `CircuitStore`: the sled metadata tree and the
files under the artifacts directory, keyed by path relative to it. -/
structure StoreState where
  info_tree : List (String × CircuitInfo)
  files : List (List String × List Nat)
deriving DecidableEq

/-- An `fs::write`: later writes shadow earlier ones at the same path. -/
def fsWrite (files : List (List String × List Nat)) (p : List String)
    (data : List Nat) : List (List String × List Nat) :=
  (p, data) :: files

/-- Turn an optional value into a store result. -/
def okOr {α : Type} (o : Option α) (e : Error) : Except Error α :=
  match o with
  | some a => .ok a
  | none => .error e

/-- `CircuitStore::store_circuit` (`state.rs`, lines 49-103): take the file
name of each of the three paths, rewrite the paths in the stored record to
`<id>/<file-name>`, write the three blobs at those relative paths, and
insert the rewritten record into the tree under the id. -/
def store_circuit (st : StoreState) (info : CircuitInfo)
    (artifact_data proving_key_data verification_key_data : List Nat) :
    Except Error StoreState := do
  let artifact_filename ← okOr (file_name info.artifact_path)
    (.InvalidInput "Artifact path must have a filename")
  let pk_filename ← okOr (file_name info.proving_key_path)
    (.InvalidInput "Proving key path must have a filename")
  let vk_filename ← okOr (file_name info.verification_key_path)
    (.InvalidInput "Verification key path must have a filename")
  let artifact_rel_path := [info.id, artifact_filename]
  let pk_rel_path := [info.id, pk_filename]
  let vk_rel_path := [info.id, vk_filename]
  let info_to_store := { info with
    artifact_path := artifact_rel_path
    proving_key_path := pk_rel_path
    verification_key_path := vk_rel_path }
  let files := fsWrite (fsWrite (fsWrite st.files artifact_rel_path artifact_data)
    pk_rel_path proving_key_data) vk_rel_path verification_key_data
  pure ⟨(info.id, info_to_store) :: st.info_tree, files⟩

/-- `CircuitStore::get_circuit_info` (`state.rs`, lines 106-120). -/
def get_circuit_info (st : StoreState) (id : String) :
    Except Error (Option CircuitInfo) :=
  .ok (lookupKey st.info_tree id)

/-- `CircuitStore::get_artifact_data` (`state.rs`, lines 123-126). -/
def get_artifact_data (st : StoreState) (info : CircuitInfo) :
    Except Error (List Nat) :=
  okOr (lookupKey st.files info.artifact_path) (.IoError "No such file")

/-- `CircuitStore::get_proving_key_data` (`state.rs`, lines 129-132). -/
def get_proving_key_data (st : StoreState) (info : CircuitInfo) :
    Except Error (List Nat) :=
  okOr (lookupKey st.files info.proving_key_path) (.IoError "No such file")

/-- `CircuitStore::get_verification_key_data` (`state.rs`, lines 135-138). -/
def get_verification_key_data (st : StoreState) (info : CircuitInfo) :
    Except Error (List Nat) :=
  okOr (lookupKey st.files info.verification_key_path) (.IoError "No such file")

/-! ## `MpcNetworkManager::establish_mpc_session` (`network.rs`)

Handles are modelled by their allocation number, so pointer equality of
`Arc` handles is equality of numbers; `attempts` counts how many times the
body past the precondition checks ran, i.e. how many Config Exchange plus
TLS mesh establishment attempts were performed. The exchange and handshake
themselves are abstracted into the `netOutcome` argument: `.ok ()` when
both succeed, `.error e` carrying whichever error the failing step
produced. Public keys are abstract (`Nat`). -/

/-- The manager's shared state: the session cache, the next fresh handle
number, and the establishment-attempt counter. -/
structure MgrState where
  cache : List (String × Nat)
  nextHandle : Nat
  attempts : Nat
deriving DecidableEq

/-- `HashMap::insert` at the observation level of `lookupKey`: the new
binding shadows any older one for the same key. -/
def cacheInsert (cache : List (String × Nat)) (sid : String) (h : Nat) :
    List (String × Nat) :=
  (sid, h) :: cache

/-- `Iterator::position` on the participant list: the 0-based index of the
first occurrence of the local key, as computed at `network.rs` lines
106-113. -/
def positionOf : List Nat → Nat → Option Nat
  | [], _ => none
  | x :: xs, k => if x = k then some 0 else (positionOf xs k).map (· + 1)

/-- `establish_mpc_session` (`network.rs`, lines 78-187), sequentially:
cache lookup first, then the `n < 2` check, then the local-index search,
then one establishment attempt whose network outcome is `netOutcome`; on
success the fresh handle is cached. -/
def establish_mpc_session (st : MgrState) (session_instance_id : String)
    (ordered_participants : List Nat) (localKey : Nat)
    (netOutcome : Except Error Unit) : Except Error Nat × MgrState :=
  match lookupKey st.cache session_instance_id with
  | some handler => (.ok handler, st)
  | none =>
    if ordered_participants.length < 2 then
      (.error (.ConfigError "MPC requires at least 2 participants"), st)
    else
      match positionOf ordered_participants localKey with
      | none => (.error (.ConfigError "Local node not found in participant list"), st)
      | some _local_party_index =>
        let st1 := { st with attempts := st.attempts + 1 }
        match netOutcome with
        | .error e => (.error e, st1)
        | .ok _ =>
          let handler := st1.nextHandle
          (.ok handler,
            { st1 with
              nextHandle := handler + 1
              cache := cacheInsert st1.cache session_instance_id handler })

/-- Program counter of one in-flight `establish_mpc_session` call in the
interleaved model: about to read the cache, past the cache miss and the
precondition checks, holding an established handle not yet inserted, or
finished with a result. -/
inductive TaskPC where
  | start
  | ready
  | insert (h : Nat)
  | done (r : Except Error Nat)
deriving DecidableEq

/-- One atomic step of a task running `establish_mpc_session` for session
`sid` (success path: preconditions hold and the network succeeds). The
suspension points of the source split the call exactly here: the read-lock
cache probe, the establishment attempt, and the write-lock insertion. -/
def stepTask (sid : String) (g : MgrState) (pc : TaskPC) : MgrState × TaskPC :=
  match pc with
  | .start =>
    match lookupKey g.cache sid with
    | some h => (g, .done (.ok h))
    | none => (g, .ready)
  | .ready =>
    let h := g.nextHandle
    ({ g with nextHandle := h + 1, attempts := g.attempts + 1 }, .insert h)
  | .insert h => ({ g with cache := cacheInsert g.cache sid h }, .done (.ok h))
  | .done r => (g, .done r)

/-- Run two concurrent `establish_mpc_session` calls for the same session
under a schedule: `true` steps the first task, `false` the second. -/
def runSched (sid : String) : List Bool → MgrState × TaskPC × TaskPC →
    MgrState × TaskPC × TaskPC
  | [], s => s
  | b :: rest, (g, p1, p2) =>
    if b then
      let s1 := stepTask sid g p1
      runSched sid rest (s1.1, s1.2, p2)
    else
      let s2 := stepTask sid g p2
      runSched sid rest (s2.1, p1, s2.2)

/-! ## Specification-side helper definitions used by the theorems -/

/-- Inverse of `splitOnColon`: interleave the pieces with colons. -/
def joinPieces : List (List Char) → List Char
  | [] => []
  | [p] => p
  | p :: q :: ps => p ++ ':' :: joinPieces (q :: ps)

/-- The address a party's reveal parses to (only meaningful when the DNS
name parses, which the theorems always assume at use sites). -/
def addrOf (reveals : Nat → RevealMsg) (j : Nat) : Address :=
  match parse_dns_name (reveals j).dns_name with
  | .ok a => a
  | .error _ => ⟨"", 0⟩

/-- The blame list accumulated by the verification loop of
`mpc_config_exchange` over the party indices `L`. -/
def glist (i : Nat) (commits : Nat → CommitMsg) (commitIds revealIds : Nat → Nat)
    (reveals : Nat → RevealMsg) : List Nat → List Blame
  | [] => []
  | j :: L =>
    if j = i then glist i commits commitIds revealIds reveals L
    else if (commits j).commitment = commitOf (reveals j) then
      glist i commits commitIds revealIds reveals L
    else ⟨j, commitIds j, revealIds j⟩ :: glist i commits commitIds revealIds reveals L

/-- The verified configurations accumulated by the verification loop of
`mpc_config_exchange` over the party indices `L`. -/
def clist (i : Nat) (commits : Nat → CommitMsg) (reveals : Nat → RevealMsg) :
    List Nat → List (Nat × NetworkPartyConfig)
  | [] => []
  | j :: L =>
    if j = i then clist i commits reveals L
    else if (commits j).commitment = commitOf (reveals j) then
      (j, ⟨j, addrOf reveals j, (reveals j).cert_path⟩) :: clist i commits reveals L
    else clist i commits reveals L

/-- Transcript reveals for the C2 counterexample: party 1 equivocates
(its commit will not match), party 2 is honest but advertises an
unparseable DNS name. -/
def c2cexReveals : Nat → RevealMsg := fun j =>
  if j = 1 then ⟨"b:2", "c1"⟩ else if j = 2 then ⟨"bad", "c2"⟩ else ⟨"a:1", "c0"⟩

/-- Transcript commits for the C2 counterexample: party 1's commitment is
32 zero bytes, which does not hash-match its reveal; everyone else commits
honestly. -/
def c2cexCommits : Nat → CommitMsg := fun j =>
  if j = 1 then ⟨List.replicate 32 0⟩ else ⟨commitOf (c2cexReveals j)⟩

/-! ## Lemmas about `splitOnColon` and `parseU16` -/

theorem splitOnColon_ne_nil (cs : List Char) : splitOnColon cs ≠ [] := by
  induction cs with
  | nil => simp [splitOnColon]
  | cons c rest ih =>
    simp only [splitOnColon]
    cases h : splitOnColon rest with
    | nil => simp
    | cons p ps => by_cases hc : c = ':' <;> simp [hc]

theorem joinPieces_cons_cons (c : Char) (p : List Char) (ps : List (List Char)) :
    joinPieces ((c :: p) :: ps) = c :: joinPieces (p :: ps) := by
  cases ps <;> simp [joinPieces]

theorem splitOnColon_join (cs : List Char) : joinPieces (splitOnColon cs) = cs := by
  induction cs with
  | nil => simp [splitOnColon, joinPieces]
  | cons c rest ih =>
    simp only [splitOnColon]
    cases h : splitOnColon rest with
    | nil => exact absurd h (splitOnColon_ne_nil rest)
    | cons p ps =>
      rw [h] at ih
      by_cases hc : c = ':'
      · subst hc
        simpa [joinPieces] using ih
      · simp only [if_neg hc]
        rw [joinPieces_cons_cons]
        rw [ih]

theorem splitOnColon_mem (cs : List Char) :
    ∀ piece ∈ splitOnColon cs, ':' ∉ piece := by
  induction cs with
  | nil =>
    intro piece hp
    simp [splitOnColon] at hp
    simp [hp]
  | cons c rest ih =>
    intro piece hp
    cases h : splitOnColon rest with
    | nil => exact absurd h (splitOnColon_ne_nil rest)
    | cons p ps =>
      rw [h] at ih
      have hp2 : piece ∈ if c = ':' then [] :: p :: ps else (c :: p) :: ps := by
        simpa only [splitOnColon, h] using hp
      by_cases hc : c = ':'
      · rw [if_pos hc] at hp2
        rcases List.mem_cons.mp hp2 with hm | hm
        · simp [hm]
        · exact ih piece hm
      · rw [if_neg hc] at hp2
        rcases List.mem_cons.mp hp2 with hm | hm
        · subst hm
          intro hmem
          rcases List.mem_cons.mp hmem with hm | hm
          · exact hc hm.symm
          · exact ih p (List.mem_cons_self p ps) hm
        · exact ih piece (List.mem_cons_of_mem p hm)

theorem splitOnColon_eq_pair {cs h p : List Char} (heq : splitOnColon cs = [h, p]) :
    cs = h ++ ':' :: p ∧ ':' ∉ h ∧ ':' ∉ p := by
  have hj := splitOnColon_join cs
  rw [heq] at hj
  have hjoin : joinPieces [h, p] = h ++ ':' :: p := by simp [joinPieces]
  refine ⟨by rw [← hj, hjoin], ?_, ?_⟩
  · exact splitOnColon_mem cs h (by rw [heq]; simp)
  · exact splitOnColon_mem cs p (by rw [heq]; simp)

theorem splitOnColon_no_colon (cs : List Char) (h : ':' ∉ cs) :
    splitOnColon cs = [cs] := by
  induction cs with
  | nil => rfl
  | cons c rest ih =>
    have hc : c ≠ ':' := fun hc => h (by simp [hc])
    have hr : ':' ∉ rest := fun hm => h (List.mem_cons_of_mem c hm)
    simp only [splitOnColon, ih hr, if_neg hc]

theorem splitOnColon_prepend (h rest : List Char) (hh : ':' ∉ h) :
    splitOnColon (h ++ ':' :: rest) = h :: splitOnColon rest := by
  induction h with
  | nil =>
    simp only [List.nil_append, splitOnColon]
    cases hr : splitOnColon rest with
    | nil => exact absurd hr (splitOnColon_ne_nil rest)
    | cons q qs => simp
  | cons c h ih =>
    have hc : c ≠ ':' := fun hc => hh (by simp [hc])
    have hh2 : ':' ∉ h := fun hm => hh (List.mem_cons_of_mem c hm)
    simp only [List.cons_append, splitOnColon, List.append_eq, ih hh2, if_neg hc]

theorem splitOnColon_of_shape (h p : List Char) (hh : ':' ∉ h) (hp : ':' ∉ p) :
    splitOnColon (h ++ ':' :: p) = [h, p] := by
  rw [splitOnColon_prepend h p hh, splitOnColon_no_colon p hp]

theorem plus_not_digit : ('+').isDigit = false := by decide

theorem parseU16_eq_of_plus (ds : List Char) :
    parseU16 ('+' :: ds) =
      (if ds.isEmpty then none
       else if ds.all Char.isDigit then
         (if digitsVal ds < 65536 then some (digitsVal ds) else none)
       else none) := by
  simp [parseU16]

theorem parseU16_eq_of_ne_plus (c : Char) (ds : List Char) (hcp : c ≠ '+') :
    parseU16 (c :: ds) =
      (if (c :: ds).all Char.isDigit then
         (if digitsVal (c :: ds) < 65536 then some (digitsVal (c :: ds)) else none)
       else none) := by
  simp [parseU16, hcp]

theorem parseU16_iff (p : List Char) (v : Nat) :
    parseU16 p = some v ↔
      ((p ≠ [] ∧ p.all Char.isDigit = true ∧ digitsVal p = v ∧ v < 65536) ∨
       (∃ ds, p = '+' :: ds ∧ ds ≠ [] ∧ ds.all Char.isDigit = true ∧
          digitsVal ds = v ∧ v < 65536)) := by
  rcases p with - | ⟨c, ds⟩
  · simp [parseU16]
  · by_cases hcp : c = '+'
    · subst hcp
      rw [parseU16_eq_of_plus]
      constructor
      · intro hmk
        by_cases hne : ds.isEmpty
        · rw [if_pos hne] at hmk; exact absurd hmk (by simp)
        · rw [if_neg hne] at hmk
          by_cases hdig : ds.all Char.isDigit
          · rw [if_pos hdig] at hmk
            by_cases hlt : digitsVal ds < 65536
            · rw [if_pos hlt] at hmk
              injection hmk with hv
              exact Or.inr ⟨ds, rfl, by simpa using hne, hdig, hv, hv ▸ hlt⟩
            · rw [if_neg hlt] at hmk; exact absurd hmk (by simp)
          · rw [if_neg hdig] at hmk; exact absurd hmk (by simp)
      · intro hcase
        rcases hcase with ⟨-, hdig, -, -⟩ | ⟨ds2, hds, hne, hdig, hval, hlt⟩
        · exact absurd hdig (by simp [List.all_cons, plus_not_digit])
        · injection hds with h1 h2
          subst h2
          rw [if_neg (by simpa using hne), if_pos hdig, hval, if_pos hlt]
    · rw [parseU16_eq_of_ne_plus c ds hcp]
      constructor
      · intro hmk
        by_cases hdig : (c :: ds).all Char.isDigit
        · rw [if_pos hdig] at hmk
          by_cases hlt : digitsVal (c :: ds) < 65536
          · rw [if_pos hlt] at hmk
            injection hmk with hv
            exact Or.inl ⟨by simp, hdig, hv, hv ▸ hlt⟩
          · rw [if_neg hlt] at hmk; exact absurd hmk (by simp)
        · rw [if_neg hdig] at hmk; exact absurd hmk (by simp)
      · intro hcase
        rcases hcase with ⟨-, hdig, hval, hlt⟩ | ⟨ds2, hds, -, -, -, -⟩
        · rw [if_pos hdig, hval, if_pos hlt]
        · exact absurd (show c = '+' by injection hds) hcp

/-! ## Claim C6 (corrected): `parse_dns_name` -/

/-- C6 counterexample: the claim says a non-numeric port must fail, but the
code accepts a port with a leading plus sign, because Rust `u16::from_str`
does: `parse_dns_name "host:+80"` succeeds with port 80 even though the
port piece is not all decimal digits. -/
theorem c6_counterexample :
    parse_dns_name "host:+80" = Except.ok ⟨"host", 80⟩ ∧
    ("+80".data.all Char.isDigit) = false := by
  constructor
  · decide
  · decide

/-- C6 amended: `parse_dns_name` accepts exactly the strings
`hostname:port` with exactly one colon, where the port piece is an
optional leading plus sign followed by one or more decimal digits with
value below 65536; it returns that hostname and port, every other input
fails with an invalid-DNS-name error, `"host:65536"` fails and `"host:0"`
succeeds with port 0. -/
theorem c6_amended (s : String) :
    (∀ a, parse_dns_name s = .ok a →
      ∃ h p, s.data = h ++ ':' :: p ∧ ':' ∉ h ∧ ':' ∉ p ∧
        a.hostname = String.mk h ∧ parseU16 p = some a.port) ∧
    (∀ h p v, s.data = h ++ ':' :: p → ':' ∉ h → ':' ∉ p → parseU16 p = some v →
      parse_dns_name s = .ok ⟨String.mk h, v⟩) ∧
    (∀ e, parse_dns_name s = .error e → ∃ m, e = .InvalidDnsName m) ∧
    (∀ p v, parseU16 p = some v ↔
      ((p ≠ [] ∧ p.all Char.isDigit = true ∧ digitsVal p = v ∧ v < 65536) ∨
       (∃ ds, p = '+' :: ds ∧ ds ≠ [] ∧ ds.all Char.isDigit = true ∧
          digitsVal ds = v ∧ v < 65536))) ∧
    parse_dns_name "host:0" = .ok ⟨"host", 0⟩ ∧
    isInvalidDnsErr (parse_dns_name "host:65536") = true := by
  refine ⟨?_, ?_, ?_, fun p v => parseU16_iff p v, by decide, by decide⟩
  · intro a hok
    unfold parse_dns_name at hok
    split at hok
    · next hostname portStr heq =>
      obtain ⟨hs, hh, hp⟩ := splitOnColon_eq_pair heq
      split at hok
      · next port hport =>
        refine ⟨hostname, portStr, hs, hh, hp, ?_, ?_⟩
        · injection hok with hok2
          rw [← hok2]
        · injection hok with hok2
          rw [← hok2]
          exact hport
      · exact absurd hok (by simp)
    · exact absurd hok (by simp)
  · intro h p v hs hh hp hu
    unfold parse_dns_name
    rw [hs, splitOnColon_of_shape h p hh hp]
    simp only [hu]
  · intro e herr
    unfold parse_dns_name at herr
    split at herr
    · next hostname portStr heq =>
      split at herr
      · exact absurd herr (by simp)
      · injection herr with herr2
        exact ⟨_, herr2.symm⟩
    · injection herr with herr2
      exact ⟨_, herr2.symm⟩

/-- C6 witness: the accepting direction of the amended claim applied at
the concrete input `"host:0"`. -/
theorem c6_witness : parse_dns_name "host:0" = Except.ok ⟨String.mk ['h', 'o', 's', 't'], 0⟩ :=
  (c6_amended "host:0").2.1 ['h', 'o', 's', 't'] ['0'] 0 (by decide) (by decide) (by decide)
    (by decide)

/-! ## Claim C7 (confirmed): `generate_circuit_id` -/

theorem sha256_length (m : List Nat) : (sha256 m).length = 32 := by
  simp [sha256, be32]

/-- The SHA-256 embedding agrees with the official FIPS 180-4 test vector
for the empty message. -/
theorem sha256_empty_vector :
    sha256 [] =
      [227, 176, 196, 66, 152, 252, 28, 20, 154, 251, 244, 200, 153, 111, 185, 36,
       39, 174, 65, 228, 100, 155, 147, 76, 164, 149, 153, 27, 120, 82, 184, 85] := by
  decide

/-- The SHA-256 embedding agrees with the official FIPS 180-4 test vector
for the message "abc". -/
theorem sha256_abc_vector :
    sha256 (strBytes "abc") =
      [186, 120, 22, 191, 143, 1, 207, 234, 65, 65, 64, 222, 93, 174, 34, 35,
       176, 3, 97, 163, 150, 23, 122, 156, 180, 16, 255, 97, 242, 0, 21, 173] := by
  decide

/-- C7: `generate_circuit_id` equals the SHA-256 digest of the
concatenation of the name's bytes with the debug renderings of the circuit
kind and the proving backend, and its output always has 32 bytes; being a
function of its three arguments, it is deterministic. -/
theorem c7_generate_circuit_id (name : String) (ct : CircuitType) (pb : ProvingBackend) :
    generate_circuit_id name ct pb =
      sha256 (strBytes name ++ strBytes ct.debugRepr ++ strBytes pb.debugRepr) ∧
    (generate_circuit_id name ct pb).length = 32 := by
  constructor
  · simp [generate_circuit_id, sha256Finalize, sha256Update, sha256New, List.append_assoc]
  · exact sha256_length _

/-! ## Claim C9 (confirmed): backend compatibility validation -/

/-- C9: `validate_backend_compatibility` succeeds on exactly the pairs
Circom-Groth16, Circom-Plonk, Noir-UltraHonk; on every other pair,
`register_circuit` is rejected with an incompatible-backend error before
any download is attempted or anything is stored. -/
theorem c9_validate_backend (ct : CircuitType) (pb : ProvingBackend) :
    (validate_backend_compatibility ct pb = .ok () ↔
      ((ct = .Circom ∧ pb = .Groth16) ∨ (ct = .Circom ∧ pb = .Plonk) ∨
        (ct = .Noir ∧ pb = .UltraHonk))) ∧
    (validate_backend_compatibility ct pb ≠ .ok () →
      ∀ name download,
        register_circuit name ct pb download =
          ⟨.error (.IncompatibleBackend ("Proving backend " ++ pb.debugRepr ++
              " is not compatible with circuit type " ++ ct.debugRepr)), 0, false⟩) := by
  cases ct <;> cases pb <;>
    simp [validate_backend_compatibility, register_circuit,
      CircuitType.debugRepr, ProvingBackend.debugRepr]

/-- C9 witness: the Noir-Groth16 pair of the claim's literal scenario is
rejected with no download and no store mutation. -/
theorem c9_witness :
    register_circuit "c1" .Noir .Groth16 (.ok []) =
      ⟨.error (.IncompatibleBackend ("Proving backend " ++
          ProvingBackend.debugRepr .Groth16 ++
          " is not compatible with circuit type " ++
          CircuitType.debugRepr .Noir)), 0, false⟩ :=
  (c9_validate_backend .Noir .Groth16).2 (by decide) "c1" (.ok [])

/-! ## Lemmas about `positionOf` -/

theorem positionOf_spec (l : List Nat) (k : Nat) :
    ∀ idx, positionOf l k = some idx →
      l.get? idx = some k ∧ ∀ m, m < idx → l.get? m ≠ some k := by
  induction l with
  | nil => intro idx h; exact absurd h (by simp [positionOf])
  | cons x xs ih =>
    intro idx h
    by_cases hx : x = k
    · rw [positionOf, if_pos hx] at h
      injection h with h
      subst h
      exact ⟨by simp [hx], fun m hm => absurd hm (by omega)⟩
    · rw [positionOf, if_neg hx] at h
      rcases hrec : positionOf xs k with - | idx2
      · rw [hrec] at h; exact absurd h (by simp)
      · rw [hrec] at h
        replace h : some (idx2 + 1) = some idx := h
        injection h with h
        subst h
        obtain ⟨hget, hmin⟩ := ih idx2 hrec
        refine ⟨by simpa using hget, ?_⟩
        intro m hm
        cases m with
        | zero => simpa using hx
        | succ m2 =>
          have := hmin m2 (by omega)
          simpa using this

theorem positionOf_isSome_of_mem (l : List Nat) (k : Nat) (hk : k ∈ l) :
    ∃ idx, positionOf l k = some idx := by
  induction l with
  | nil => exact absurd hk (by simp)
  | cons x xs ih =>
    by_cases hx : x = k
    · exact ⟨0, by rw [positionOf, if_pos hx]⟩
    · have hk2 : k ∈ xs := by
        rcases List.mem_cons.mp hk with hm | hm
        · exact absurd hm.symm hx
        · exact hm
      obtain ⟨idx, hidx⟩ := ih hk2
      exact ⟨idx + 1, by rw [positionOf, if_neg hx, hidx]; rfl⟩

/-! ## Claim C4 (confirmed): session cache insert on success only -/

/-- C4: from a cache miss with valid preconditions, a successful
establishment returns the fresh handle, caches it, and a second call with
the same identifier returns that identical handle with the whole state
unchanged (in particular no further establishment attempt); a failed
establishment propagates the error and leaves the cache untouched, only
the attempt counter having moved. -/
theorem c4_cache_contract (st : MgrState) (sid : String) (parts : List Nat)
    (k idx : Nat) (hmiss : lookupKey st.cache sid = none)
    (hn : ¬ parts.length < 2) (hidx : positionOf parts k = some idx) :
    establish_mpc_session st sid parts k (.ok ()) =
      (.ok st.nextHandle,
        ⟨cacheInsert st.cache sid st.nextHandle, st.nextHandle + 1, st.attempts + 1⟩) ∧
    lookupKey (cacheInsert st.cache sid st.nextHandle) sid = some st.nextHandle ∧
    (∀ out2,
      establish_mpc_session
        ⟨cacheInsert st.cache sid st.nextHandle, st.nextHandle + 1, st.attempts + 1⟩
        sid parts k out2 =
        (.ok st.nextHandle,
          ⟨cacheInsert st.cache sid st.nextHandle, st.nextHandle + 1, st.attempts + 1⟩)) ∧
    (∀ e, establish_mpc_session st sid parts k (.error e) =
      (.error e, { st with attempts := st.attempts + 1 })) := by
  refine ⟨?_, ?_, ?_, ?_⟩
  · rw [establish_mpc_session]
    rw [hmiss, if_neg hn, hidx]
  · simp [cacheInsert, lookupKey]
  · intro out2
    rw [establish_mpc_session]
    simp [cacheInsert, lookupKey]
  · intro e
    rw [establish_mpc_session]
    rw [hmiss, if_neg hn, hidx]

/-- C4 witness: the contract applied at a concrete fresh manager state
with two participants. -/
theorem c4_witness :
    establish_mpc_session ⟨[], 0, 0⟩ "s" [5, 6] 5 (.ok ()) =
      (.ok 0, ⟨cacheInsert [] "s" 0, 1, 1⟩) :=
  (c4_cache_contract ⟨[], 0, 0⟩ "s" [5, 6] 5 0 rfl (by decide) (by decide)).1

/-! ## Claim C5 (corrected): precondition checks -/

/-- C5 counterexample: the cache lookup precedes every precondition check,
so with a handle already cached under the identifier, a call whose
participant list has fewer than 2 entries does not fail: it returns the
cached handle. -/
theorem c5_counterexample :
    ([42] : List Nat).length < 2 ∧
    establish_mpc_session ⟨[("s", 7)], 8, 3⟩ "s" [42] 42 (.ok ()) =
      (.ok 7, ⟨[("s", 7)], 8, 3⟩) := by
  constructor
  · decide
  · rw [establish_mpc_session]
    simp [lookupKey]

/-- C5 amended: provided no handle is cached under the session identifier,
`establish_mpc_session` fails with a configuration error before any
protocol round is run (the state, in particular the attempt counter, is
unchanged) whenever the participant list has fewer than 2 entries or the
local key is absent from it; with exactly 2 participants including the
local key the precondition checks pass and the establishment attempt is
performed. -/
theorem c5_preconditions (st : MgrState) (sid : String) (parts : List Nat) (k : Nat)
    (hmiss : lookupKey st.cache sid = none) :
    (∀ out, parts.length < 2 →
      establish_mpc_session st sid parts k out =
        (.error (.ConfigError "MPC requires at least 2 participants"), st)) ∧
    (∀ out, ¬ parts.length < 2 → positionOf parts k = none →
      establish_mpc_session st sid parts k out =
        (.error (.ConfigError "Local node not found in participant list"), st)) ∧
    (parts.length = 2 → k ∈ parts → ∀ out,
      (establish_mpc_session st sid parts k out).2.attempts = st.attempts + 1) := by
  refine ⟨?_, ?_, ?_⟩
  · intro out hlen
    rw [establish_mpc_session, hmiss, if_pos hlen]
  · intro out hlen hpos
    rw [establish_mpc_session, hmiss, if_neg hlen, hpos]
  · intro hlen hk out
    obtain ⟨idx, hidx⟩ := positionOf_isSome_of_mem parts k hk
    rw [establish_mpc_session, hmiss, if_neg (by omega), hidx]
    cases out <;> rfl

/-- C5 witness: with an empty cache, one single participant is rejected
with the configuration error before any attempt. -/
theorem c5_witness :
    establish_mpc_session ⟨[], 0, 0⟩ "s" [1] 5 (.ok ()) =
      (.error (.ConfigError "MPC requires at least 2 participants"), ⟨[], 0, 0⟩) :=
  (c5_preconditions ⟨[], 0, 0⟩ "s" [1] 5 rfl).1 (.ok ()) (by decide)

/-! ## Claim C10 (confirmed): duplicate keys are not rejected -/

/-- C10: `establish_mpc_session` never checks that the participant keys
are distinct: with the local key occurring at least twice (and a cache
miss), establishment proceeds (the attempt runs and, with a successful
network outcome, the call succeeds), and the local party index is the
0-based position of the first occurrence of the local key. -/
theorem c10_duplicate_keys (st : MgrState) (sid : String) (parts : List Nat) (k : Nat)
    (hmiss : lookupKey st.cache sid = none) (hdup : 2 ≤ parts.count k) :
    ∃ idx, positionOf parts k = some idx ∧
      parts.get? idx = some k ∧
      (∀ m, m < idx → parts.get? m ≠ some k) ∧
      (establish_mpc_session st sid parts k (.ok ())).1 = .ok st.nextHandle ∧
      (establish_mpc_session st sid parts k (.ok ())).2.attempts = st.attempts + 1 := by
  have hmem : k ∈ parts := by
    rcases List.count_pos_iff.mp (by omega : 0 < parts.count k) with h
    exact h
  have hlen : ¬ parts.length < 2 := by
    have := List.count_le_length k parts
    omega
  obtain ⟨idx, hidx⟩ := positionOf_isSome_of_mem parts k hmem
  obtain ⟨hget, hmin⟩ := positionOf_spec parts k idx hidx
  refine ⟨idx, hidx, hget, hmin, ?_, ?_⟩ <;>
    rw [establish_mpc_session, hmiss, if_neg hlen, hidx]

/-- C10 witness: a two-entry participant list holding the local key twice
is accepted, with local index 0. -/
theorem c10_witness :
    ∃ idx, positionOf [5, 5] 5 = some idx ∧
      ([5, 5] : List Nat).get? idx = some 5 ∧
      (∀ m, m < idx → ([5, 5] : List Nat).get? m ≠ some 5) ∧
      (establish_mpc_session ⟨[], 0, 0⟩ "s" [5, 5] 5 (.ok ())).1 = .ok 0 ∧
      (establish_mpc_session ⟨[], 0, 0⟩ "s" [5, 5] 5 (.ok ())).2.attempts = 0 + 1 :=
  c10_duplicate_keys ⟨[], 0, 0⟩ "s" [5, 5] 5 rfl (by decide)

/-! ## Claim C3 (corrected): concurrent establishment is not single-flighted -/

/-- C3 counterexample: two concurrent calls with the same session
identifier, interleaved so that both read the cache before either inserts,
perform two establishment attempts and return distinct (non-pointer-equal)
handles; the later insert shadows the earlier one in the cache. -/
theorem c3_counterexample :
    runSched "s" [true, false, true, true, false, false]
        (⟨[], 0, 0⟩, .start, .start) =
      (⟨[("s", 1), ("s", 0)], 2, 2⟩, .done (.ok 0), .done (.ok 1)) := by
  rw [runSched]
  simp [stepTask, runSched, lookupKey, cacheInsert]

/-- C3 amended: the two calls do not collapse. If both pass the cache probe
before either inserts, each performs its own establishment attempt and the
callers receive distinct handles; only when one call's cache probe happens
after the other's insertion does it reuse the existing handle, performing
no establishment attempt of its own. -/
theorem c3_no_single_flight (sid : String) (cache0 : List (String × Nat)) (n0 a0 : Nat)
    (hmiss : lookupKey cache0 sid = none) :
    (runSched sid [true, false, true, true, false, false]
        (⟨cache0, n0, a0⟩, .start, .start) =
      (⟨cacheInsert (cacheInsert cache0 sid n0) sid (n0 + 1), n0 + 2, a0 + 2⟩,
        .done (.ok n0), .done (.ok (n0 + 1))) ∧
      n0 ≠ n0 + 1) ∧
    runSched sid [true, true, true, false]
        (⟨cache0, n0, a0⟩, .start, .start) =
      (⟨cacheInsert cache0 sid n0, n0 + 1, a0 + 1⟩,
        .done (.ok n0), .done (.ok n0)) := by
  refine ⟨⟨?_, by omega⟩, ?_⟩ <;>
    simp [runSched, stepTask, lookupKey, cacheInsert, hmiss]

/-- C3 witness: the serialized interleaving of the amended claim at a
concrete state: one attempt, and the second caller reuses the identical
handle. -/
theorem c3_witness :
    runSched "s" [true, true, true, false] (⟨[], 0, 0⟩, .start, .start) =
      (⟨cacheInsert [] "s" 0, 1, 1⟩, .done (.ok 0), .done (.ok 0)) :=
  (c3_no_single_flight "s" [] 0 0 rfl).2

/-! ## Claim C8 (corrected): circuit store round-trip -/

/-- C8 counterexample: `store_circuit` rewrites the three path fields to
`<id>/<file-name>` before inserting the metadata record, so the record
returned by `get_circuit_info` is not equal to the stored `info` whenever
`info`'s paths are bare file names (as `register_circuit` passes them). -/
theorem c8_counterexample :
    (store_circuit ⟨[], []⟩
        ⟨"ff", "c", .Circom, .Groth16, ["circuit_artifact.r1cs"], ["proving.key"],
          ["verification.key"], none⟩ [1] [2] [3]).bind
      (fun st => get_circuit_info st "ff") =
      .ok (some ⟨"ff", "c", .Circom, .Groth16, ["ff", "circuit_artifact.r1cs"],
        ["ff", "proving.key"], ["ff", "verification.key"], none⟩) ∧
    (⟨"ff", "c", .Circom, .Groth16, ["ff", "circuit_artifact.r1cs"],
        ["ff", "proving.key"], ["ff", "verification.key"], none⟩ : CircuitInfo) ≠
      ⟨"ff", "c", .Circom, .Groth16, ["circuit_artifact.r1cs"], ["proving.key"],
        ["verification.key"], none⟩ := by
  constructor
  · decide
  · decide

/-- C8 amended: `store_circuit` followed by `get_circuit_info` on the id
returns Some of `info` with its three path fields rewritten to
`<id>/<file-name>`, and the three reads on that retrieved record return
exactly the stored artifact, proving-key and verification-key bytes
(each path must carry a file name and the three file names must be
pairwise distinct, as `register_circuit`'s are, lest the blob writes
overwrite one another). -/
theorem c8_roundtrip (st : StoreState) (info : CircuitInfo) (a pk vk : List Nat)
    (af pf vf : String)
    (ha : file_name info.artifact_path = some af)
    (hp : file_name info.proving_key_path = some pf)
    (hv : file_name info.verification_key_path = some vf)
    (hap : af ≠ pf) (hav : af ≠ vf) (hpv : pf ≠ vf) :
    ∃ st1 info1,
      store_circuit st info a pk vk = .ok st1 ∧
      info1 = { info with
        artifact_path := [info.id, af]
        proving_key_path := [info.id, pf]
        verification_key_path := [info.id, vf] } ∧
      get_circuit_info st1 info.id = .ok (some info1) ∧
      get_artifact_data st1 info1 = .ok a ∧
      get_proving_key_data st1 info1 = .ok pk ∧
      get_verification_key_data st1 info1 = .ok vk := by
  refine ⟨⟨(info.id, { info with
      artifact_path := [info.id, af]
      proving_key_path := [info.id, pf]
      verification_key_path := [info.id, vf] }) :: st.info_tree,
    fsWrite (fsWrite (fsWrite st.files [info.id, af] a) [info.id, pf] pk)
      [info.id, vf] vk⟩, _, ?_, rfl, ?_, ?_, ?_, ?_⟩
  · rw [store_circuit]
    rw [ha, hp, hv]
    rfl
  · simp [get_circuit_info, lookupKey]
  · simp [get_artifact_data, fsWrite, lookupKey, okOr, hav.symm, hap.symm]
  · simp [get_proving_key_data, fsWrite, lookupKey, okOr, hpv.symm]
  · simp [get_verification_key_data, fsWrite, lookupKey, okOr]

/-- C8 witness: the amended round-trip at the concrete record and blobs of
the counterexample. -/
theorem c8_witness :
    ∃ st1 info1,
      store_circuit ⟨[], []⟩
        ⟨"ff", "c", .Circom, .Groth16, ["circuit_artifact.r1cs"], ["proving.key"],
          ["verification.key"], none⟩ [1] [2] [3] = .ok st1 ∧
      info1 = { (⟨"ff", "c", .Circom, .Groth16, ["circuit_artifact.r1cs"],
          ["proving.key"], ["verification.key"], none⟩ : CircuitInfo) with
        artifact_path := ["ff", "circuit_artifact.r1cs"]
        proving_key_path := ["ff", "proving.key"]
        verification_key_path := ["ff", "verification.key"] } ∧
      get_circuit_info st1 "ff" = .ok (some info1) ∧
      get_artifact_data st1 info1 = .ok [1] ∧
      get_proving_key_data st1 info1 = .ok [2] ∧
      get_verification_key_data st1 info1 = .ok [3] :=
  c8_roundtrip ⟨[], []⟩
    ⟨"ff", "c", .Circom, .Groth16, ["circuit_artifact.r1cs"], ["proving.key"],
      ["verification.key"], none⟩ [1] [2] [3]
    "circuit_artifact.r1cs" "proving.key" "verification.key"
    rfl rfl rfl (by decide) (by decide) (by decide)

/-! ## The verification loop of `mpc_config_exchange`, characterized -/

theorem exchangeStep_self (i : Nat) (commits : Nat → CommitMsg)
    (commitIds revealIds : Nat → Nat) (reveals : Nat → RevealMsg)
    (acc : List Blame × List (Nat × NetworkPartyConfig)) :
    exchangeStep i commits commitIds revealIds reveals acc i = .ok acc := by
  simp only [exchangeStep, if_pos rfl]
  rfl

theorem exchangeStep_verified (i j : Nat) (commits : Nat → CommitMsg)
    (commitIds revealIds : Nat → Nat) (reveals : Nat → RevealMsg)
    (acc : List Blame × List (Nat × NetworkPartyConfig)) (a : Address)
    (hji : j ≠ i) (hcm : (commits j).commitment = commitOf (reveals j))
    (hpa : parse_dns_name (reveals j).dns_name = .ok a) :
    exchangeStep i commits commitIds revealIds reveals acc j =
      .ok (acc.1, acc.2 ++ [(j, ⟨j, a, (reveals j).cert_path⟩)]) := by
  simp [exchangeStep, hji, hcm, hpa]

theorem exchangeStep_blame (i j : Nat) (commits : Nat → CommitMsg)
    (commitIds revealIds : Nat → Nat) (reveals : Nat → RevealMsg)
    (acc : List Blame × List (Nat × NetworkPartyConfig))
    (hji : j ≠ i) (hcm : ¬ (commits j).commitment = commitOf (reveals j)) :
    exchangeStep i commits commitIds revealIds reveals acc j =
      .ok (acc.1 ++ [⟨j, commitIds j, revealIds j⟩], acc.2) := by
  simp only [exchangeStep, if_neg hji, if_neg hcm]
  rfl

theorem foldlM_exchange (i : Nat) (commits : Nat → CommitMsg)
    (commitIds revealIds : Nat → Nat) (reveals : Nat → RevealMsg) :
    ∀ (L : List Nat) (g : List Blame) (cfgs : List (Nat × NetworkPartyConfig)),
      (∀ j ∈ L, j ≠ i → (commits j).commitment = commitOf (reveals j) →
        ∃ a, parse_dns_name (reveals j).dns_name = .ok a) →
      L.foldlM (exchangeStep i commits commitIds revealIds reveals) (g, cfgs) =
        .ok (g ++ glist i commits commitIds revealIds reveals L,
             cfgs ++ clist i commits reveals L) := by
  intro L
  induction L with
  | nil => intro g cfgs _; simp [glist, clist]; rfl
  | cons j L ih =>
    intro g cfgs hok
    rw [List.foldlM_cons]
    have hok2 : ∀ j2 ∈ L, j2 ≠ i → (commits j2).commitment = commitOf (reveals j2) →
        ∃ a, parse_dns_name (reveals j2).dns_name = .ok a :=
      fun j2 hj2 => hok j2 (List.mem_cons_of_mem j hj2)
    by_cases hji : j = i
    · subst hji
      rw [exchangeStep_self]
      rw [show glist j commits commitIds revealIds reveals (j :: L) =
            glist j commits commitIds revealIds reveals L by simp [glist]]
      rw [show clist j commits reveals (j :: L) = clist j commits reveals L by
        simp [clist]]
      exact ih g cfgs hok2
    · by_cases hcm : (commits j).commitment = commitOf (reveals j)
      · obtain ⟨a, hpa⟩ := hok j (List.mem_cons_self j L) hji hcm
        rw [exchangeStep_verified i j commits commitIds revealIds reveals (g, cfgs) a
          hji hcm hpa]
        have haddr : addrOf reveals j = a := by simp [addrOf, hpa]
        rw [show glist i commits commitIds revealIds reveals (j :: L) =
              glist i commits commitIds revealIds reveals L by simp [glist, hji, hcm]]
        rw [show clist i commits reveals (j :: L) =
              (j, ⟨j, addrOf reveals j, (reveals j).cert_path⟩) ::
                clist i commits reveals L by simp [clist, hji, hcm]]
        rw [haddr]
        rw [show cfgs ++ ((j, (⟨j, a, (reveals j).cert_path⟩ : NetworkPartyConfig)) ::
              clist i commits reveals L) =
            (cfgs ++ [(j, ⟨j, a, (reveals j).cert_path⟩)]) ++
              clist i commits reveals L by simp]
        exact ih g (cfgs ++ [(j, ⟨j, a, (reveals j).cert_path⟩)]) hok2
      · rw [exchangeStep_blame i j commits commitIds revealIds reveals (g, cfgs) hji hcm]
        rw [show glist i commits commitIds revealIds reveals (j :: L) =
              (⟨j, commitIds j, revealIds j⟩ : Blame) ::
                glist i commits commitIds revealIds reveals L by simp [glist, hji, hcm]]
        rw [show clist i commits reveals (j :: L) = clist i commits reveals L by
          simp [clist, hji, hcm]]
        rw [show g ++ ((⟨j, commitIds j, revealIds j⟩ : Blame) ::
              glist i commits commitIds revealIds reveals L) =
            (g ++ [⟨j, commitIds j, revealIds j⟩]) ++
              glist i commits commitIds revealIds reveals L by simp]
        exact ih (g ++ [⟨j, commitIds j, revealIds j⟩]) cfgs hok2

theorem except_bind_ok {α β : Type} (a : α) (f : α → Except Error β) :
    (Except.ok a >>= f) = f a := rfl

theorem mpc_config_exchange_eq (i n : Nat) (lc : RevealMsg)
    (commits : Nat → CommitMsg) (commitIds : Nat → Nat)
    (reveals : Nat → RevealMsg) (revealIds : Nat → Nat) (la : Address)
    (hla : parse_dns_name lc.dns_name = .ok la)
    (hok : ∀ j, j < n → j ≠ i → (commits j).commitment = commitOf (reveals j) →
      ∃ a, parse_dns_name (reveals j).dns_name = .ok a) :
    mpc_config_exchange i n lc commits commitIds reveals revealIds =
      (if glist i commits commitIds revealIds reveals (List.range n) = [] then
        .ok ((i, ⟨i, la, lc.cert_path⟩) :: clist i commits reveals (List.range n))
      else
        .error (.CommitmentMismatch
          (glist i commits commitIds revealIds reveals (List.range n)))) := by
  have h1 : mpc_config_exchange i n lc commits commitIds reveals revealIds =
      ((List.range n).foldlM (exchangeStep i commits commitIds revealIds reveals)
        ([], [(i, ⟨i, la, lc.cert_path⟩)]) >>= fun res =>
        if res.1.isEmpty then pure res.2
        else throw (.CommitmentMismatch res.1)) := by
    rw [mpc_config_exchange, hla]
    rfl
  rw [h1, foldlM_exchange i commits commitIds revealIds reveals (List.range n) []
    [(i, ⟨i, la, lc.cert_path⟩)] (fun j hj => hok j (List.mem_range.mp hj))]
  rcases hg : glist i commits commitIds revealIds reveals (List.range n) with - | ⟨b, bs⟩
  · rw [if_pos rfl, except_bind_ok, if_pos (by simp)]
    rfl
  · rw [if_neg (by simp), except_bind_ok, if_neg (by simp)]
    rfl

theorem glist_eq_nil (i : Nat) (commits : Nat → CommitMsg)
    (commitIds revealIds : Nat → Nat) (reveals : Nat → RevealMsg) :
    ∀ L, (∀ j ∈ L, (commits j).commitment = commitOf (reveals j)) →
      glist i commits commitIds revealIds reveals L = [] := by
  intro L
  induction L with
  | nil => intro _; simp [glist]
  | cons j L ih =>
    intro hall
    have hcm := hall j (List.mem_cons_self j L)
    have hrest := ih (fun j2 hj2 => hall j2 (List.mem_cons_of_mem j hj2))
    by_cases hji : j = i
    · simp [glist, hji, hrest]
    · simp [glist, hji, hcm, hrest]

theorem mem_glist (i : Nat) (commits : Nat → CommitMsg)
    (commitIds revealIds : Nat → Nat) (reveals : Nat → RevealMsg) :
    ∀ (L : List Nat) (b : Blame),
      b ∈ glist i commits commitIds revealIds reveals L ↔
        (b.guilty_party ∈ L ∧ b.guilty_party ≠ i ∧
          (commits b.guilty_party).commitment ≠ commitOf (reveals b.guilty_party) ∧
          b = ⟨b.guilty_party, commitIds b.guilty_party, revealIds b.guilty_party⟩) := by
  intro L
  induction L with
  | nil => intro b; simp [glist]
  | cons j L ih =>
    intro b
    by_cases hji : j = i
    · rw [show glist i commits commitIds revealIds reveals (j :: L) =
            glist i commits commitIds revealIds reveals L by simp [glist, hji]]
      rw [ih b]
      constructor
      · rintro ⟨hm, hbi, hbcm, hbeq⟩
        exact ⟨List.mem_cons_of_mem j hm, hbi, hbcm, hbeq⟩
      · rintro ⟨hm, hbi, hbcm, hbeq⟩
        rcases List.mem_cons.mp hm with hm2 | hm2
        · exact absurd (hm2.trans hji) hbi
        · exact ⟨hm2, hbi, hbcm, hbeq⟩
    · by_cases hcm : (commits j).commitment = commitOf (reveals j)
      · rw [show glist i commits commitIds revealIds reveals (j :: L) =
              glist i commits commitIds revealIds reveals L by simp [glist, hji, hcm]]
        rw [ih b]
        constructor
        · rintro ⟨hm, hbi, hbcm, hbeq⟩
          exact ⟨List.mem_cons_of_mem j hm, hbi, hbcm, hbeq⟩
        · rintro ⟨hm, hbi, hbcm, hbeq⟩
          rcases List.mem_cons.mp hm with hm2 | hm2
          · rw [hm2] at hbcm
            exact absurd hcm hbcm
          · exact ⟨hm2, hbi, hbcm, hbeq⟩
      · rw [show glist i commits commitIds revealIds reveals (j :: L) =
              (⟨j, commitIds j, revealIds j⟩ : Blame) ::
                glist i commits commitIds revealIds reveals L by
            simp [glist, hji, hcm]]
        constructor
        · intro hmem
          rcases List.mem_cons.mp hmem with hm2 | hm2
          · subst hm2
            exact ⟨List.mem_cons_self j L, hji, hcm, rfl⟩
          · obtain ⟨hm, hbi, hbcm, hbeq⟩ := (ih b).mp hm2
            exact ⟨List.mem_cons_of_mem j hm, hbi, hbcm, hbeq⟩
        · rintro ⟨hm, hbi, hbcm, hbeq⟩
          rcases List.mem_cons.mp hm with hm2 | hm2
          · exact List.mem_cons.mpr (Or.inl (by rw [hbeq, hm2]))
          · exact List.mem_cons.mpr (Or.inr ((ih b).mpr ⟨hm2, hbi, hbcm, hbeq⟩))

theorem lookupKey_clist (i : Nat) (commits : Nat → CommitMsg)
    (reveals : Nat → RevealMsg) :
    ∀ (L : List Nat) (k : Nat),
      lookupKey (clist i commits reveals L) k =
        (if k ∈ L ∧ k ≠ i ∧ (commits k).commitment = commitOf (reveals k)
         then some ⟨k, addrOf reveals k, (reveals k).cert_path⟩ else none) := by
  intro L
  induction L with
  | nil => intro k; simp [clist, lookupKey]
  | cons j L ih =>
    intro k
    by_cases hji : j = i
    · rw [show clist i commits reveals (j :: L) = clist i commits reveals L by
        simp [clist, hji]]
      rw [ih k]
      refine if_congr ?_ rfl rfl
      subst hji
      constructor
      · rintro ⟨hm, hki, hP⟩
        exact ⟨List.mem_cons_of_mem j hm, hki, hP⟩
      · rintro ⟨hm, hki, hP⟩
        rcases List.mem_cons.mp hm with hm2 | hm2
        · exact absurd hm2 hki
        · exact ⟨hm2, hki, hP⟩
    · by_cases hcm : (commits j).commitment = commitOf (reveals j)
      · rw [show clist i commits reveals (j :: L) =
              (j, (⟨j, addrOf reveals j, (reveals j).cert_path⟩ : NetworkPartyConfig)) ::
                clist i commits reveals L by simp [clist, hji, hcm]]
        rw [lookupKey]
        by_cases hjk : j = k
        · subst hjk
          rw [if_pos rfl, if_pos ⟨List.mem_cons_self j L, hji, hcm⟩]
        · rw [if_neg hjk, ih k]
          refine if_congr ?_ rfl rfl
          constructor
          · rintro ⟨hm, hki, hP⟩
            exact ⟨List.mem_cons_of_mem j hm, hki, hP⟩
          · rintro ⟨hm, hki, hP⟩
            rcases List.mem_cons.mp hm with hm2 | hm2
            · exact absurd hm2.symm hjk
            · exact ⟨hm2, hki, hP⟩
      · rw [show clist i commits reveals (j :: L) = clist i commits reveals L by
          simp [clist, hji, hcm]]
        rw [ih k]
        refine if_congr ?_ rfl rfl
        constructor
        · rintro ⟨hm, hki, hP⟩
          exact ⟨List.mem_cons_of_mem j hm, hki, hP⟩
        · rintro ⟨hm, hki, hP⟩
          rcases List.mem_cons.mp hm with hm2 | hm2
          · rw [hm2] at hP
            exact absurd hP hcm
          · exact ⟨hm2, hki, hP⟩

theorem clist_length_of_not_mem (i : Nat) (commits : Nat → CommitMsg)
    (reveals : Nat → RevealMsg) :
    ∀ L, (∀ j ∈ L, (commits j).commitment = commitOf (reveals j)) → i ∉ L →
      (clist i commits reveals L).length = L.length := by
  intro L
  induction L with
  | nil => intro _ _; simp [clist]
  | cons j L ih =>
    intro hall hnm
    have hji : j ≠ i := fun h => hnm (by rw [h]; exact List.mem_cons_self i L)
    have hcm := hall j (List.mem_cons_self j L)
    rw [show clist i commits reveals (j :: L) =
          (j, (⟨j, addrOf reveals j, (reveals j).cert_path⟩ : NetworkPartyConfig)) ::
            clist i commits reveals L by simp [clist, hji, hcm]]
    have := ih (fun j2 hj2 => hall j2 (List.mem_cons_of_mem j hj2))
      (fun hm => hnm (List.mem_cons_of_mem j hm))
    simp [this]

theorem clist_length_of_mem (i : Nat) (commits : Nat → CommitMsg)
    (reveals : Nat → RevealMsg) :
    ∀ L, (∀ j ∈ L, (commits j).commitment = commitOf (reveals j)) → L.Nodup →
      i ∈ L → (clist i commits reveals L).length + 1 = L.length := by
  intro L
  induction L with
  | nil => intro _ _ hm; exact absurd hm (by simp)
  | cons j L ih =>
    intro hall hnd hm
    have hndL : L.Nodup := (List.nodup_cons.mp hnd).2
    have hjnm : j ∉ L := (List.nodup_cons.mp hnd).1
    by_cases hji : j = i
    · rw [show clist i commits reveals (j :: L) = clist i commits reveals L by
        simp [clist, hji]]
      have hinL : i ∉ L := by rw [← hji]; exact hjnm
      rw [clist_length_of_not_mem i commits reveals L
        (fun j2 hj2 => hall j2 (List.mem_cons_of_mem j hj2)) hinL]
      simp
    · have hiL : i ∈ L := by
        rcases List.mem_cons.mp hm with hm2 | hm2
        · exact absurd hm2.symm hji
        · exact hm2
      have hcm := hall j (List.mem_cons_self j L)
      rw [show clist i commits reveals (j :: L) =
            (j, (⟨j, addrOf reveals j, (reveals j).cert_path⟩ : NetworkPartyConfig)) ::
              clist i commits reveals L by simp [clist, hji, hcm]]
      have := ih (fun j2 hj2 => hall j2 (List.mem_cons_of_mem j hj2)) hndL hiL
      simp only [List.length_cons]
      omega

/-! ## Claim C1 (confirmed): honest executions agree on the full map -/

/-- C1: in an honest execution with `n ≥ 2` parties — every delivered
commit hashes to the corresponding reveal and every revealed DNS name
parses — every participant's `mpc_config_exchange` returns a map with
exactly `n` entries keyed `0..n-1`, any two participants' maps agree on
every key, and entry `j` holds party `j`'s revealed address and cert
path. -/
theorem c1_honest_agreement (n : Nat) (_hn : 2 ≤ n)
    (commits : Nat → CommitMsg) (commitIds revealIds : Nat → Nat)
    (reveals : Nat → RevealMsg)
    (honest : ∀ j, j < n → (commits j).commitment = commitOf (reveals j))
    (parses : ∀ j, j < n → ∃ a, parse_dns_name (reveals j).dns_name = .ok a)
    (i1 i2 : Nat) (h1 : i1 < n) (h2 : i2 < n) :
    ∃ m1 m2,
      mpc_config_exchange i1 n (reveals i1) commits commitIds reveals revealIds =
        .ok m1 ∧
      mpc_config_exchange i2 n (reveals i2) commits commitIds reveals revealIds =
        .ok m2 ∧
      m1.length = n ∧
      (∀ k, (lookupKey m1 k).isSome = true ↔ k < n) ∧
      (∀ k, lookupKey m1 k = lookupKey m2 k) ∧
      (∀ j, j < n → ∀ a, parse_dns_name (reveals j).dns_name = .ok a →
        lookupKey m1 j = some ⟨j, a, (reveals j).cert_path⟩) := by
  have honestR : ∀ j ∈ List.range n,
      (commits j).commitment = commitOf (reveals j) :=
    fun j hj => honest j (List.mem_range.mp hj)
  have hgnil := glist_eq_nil i1 commits commitIds revealIds reveals (List.range n) honestR
  have key : ∀ i, i < n →
      mpc_config_exchange i n (reveals i) commits commitIds reveals revealIds =
        .ok ((i, ⟨i, addrOf reveals i, (reveals i).cert_path⟩) ::
          clist i commits reveals (List.range n)) := by
    intro i hi
    obtain ⟨a, ha⟩ := parses i hi
    have haddr : addrOf reveals i = a := by simp [addrOf, ha]
    rw [mpc_config_exchange_eq i n (reveals i) commits commitIds reveals revealIds a ha
      (fun j hj _ _ => parses j hj)]
    rw [if_pos (glist_eq_nil i commits commitIds revealIds reveals (List.range n) honestR)]
    rw [haddr]
  have keylookup : ∀ i, i < n → ∀ k,
      lookupKey ((i, (⟨i, addrOf reveals i, (reveals i).cert_path⟩ :
            NetworkPartyConfig)) :: clist i commits reveals (List.range n)) k =
        (if k < n then some ⟨k, addrOf reveals k, (reveals k).cert_path⟩ else none) := by
    intro i hi k
    rw [lookupKey]
    by_cases hik : i = k
    · subst hik
      rw [if_pos rfl, if_pos hi]
    · rw [if_neg hik, lookupKey_clist]
      by_cases hkn : k < n
      · rw [if_pos ⟨List.mem_range.mpr hkn, fun h => hik h.symm, honest k hkn⟩,
          if_pos hkn]
      · rw [if_neg fun hc => hkn (List.mem_range.mp hc.1), if_neg hkn]
  have keylength : ∀ i, i < n →
      ((i, (⟨i, addrOf reveals i, (reveals i).cert_path⟩ : NetworkPartyConfig)) ::
        clist i commits reveals (List.range n)).length = n := by
    intro i hi
    have hc := clist_length_of_mem i commits reveals (List.range n) honestR
      (List.nodup_range n) (List.mem_range.mpr hi)
    rw [List.length_range] at hc
    simp only [List.length_cons]
    omega
  refine ⟨_, _, key i1 h1, key i2 h2, keylength i1 h1, ?_, ?_, ?_⟩
  · intro k
    rw [keylookup i1 h1 k]
    by_cases hkn : k < n
    · simp [hkn]
    · simp [hkn]
  · intro k
    rw [keylookup i1 h1 k, keylookup i2 h2 k]
  · intro j hj a ha
    have haddr : addrOf reveals j = a := by simp [addrOf, ha]
    rw [keylookup i1 h1 j, if_pos hj, haddr]

/-- C1 witness: a concrete honest two-party transcript; both parties
obtain the same two-entry map. -/
theorem c1_witness :
    ∃ m1 m2,
      mpc_config_exchange 0 2
          ((fun j => if j = 0 then (⟨"a:1", "c0"⟩ : RevealMsg) else ⟨"b:2", "c1"⟩) 0)
          (fun j => ⟨commitOf ((fun j2 =>
            if j2 = 0 then (⟨"a:1", "c0"⟩ : RevealMsg) else ⟨"b:2", "c1"⟩) j)⟩)
          (fun j => j)
          (fun j => if j = 0 then (⟨"a:1", "c0"⟩ : RevealMsg) else ⟨"b:2", "c1"⟩)
          (fun j => 10 + j) = .ok m1 ∧
      mpc_config_exchange 1 2
          ((fun j => if j = 0 then (⟨"a:1", "c0"⟩ : RevealMsg) else ⟨"b:2", "c1"⟩) 1)
          (fun j => ⟨commitOf ((fun j2 =>
            if j2 = 0 then (⟨"a:1", "c0"⟩ : RevealMsg) else ⟨"b:2", "c1"⟩) j)⟩)
          (fun j => j)
          (fun j => if j = 0 then (⟨"a:1", "c0"⟩ : RevealMsg) else ⟨"b:2", "c1"⟩)
          (fun j => 10 + j) = .ok m2 ∧
      m1.length = 2 ∧
      (∀ k, (lookupKey m1 k).isSome = true ↔ k < 2) ∧
      (∀ k, lookupKey m1 k = lookupKey m2 k) ∧
      (∀ j, j < 2 → ∀ a,
        parse_dns_name (((fun j2 =>
          if j2 = 0 then (⟨"a:1", "c0"⟩ : RevealMsg) else ⟨"b:2", "c1"⟩) j)).dns_name =
            .ok a →
        lookupKey m1 j = some ⟨j, a,
          (((fun j2 => if j2 = 0 then (⟨"a:1", "c0"⟩ : RevealMsg) else ⟨"b:2", "c1"⟩) j)).cert_path⟩) :=
  c1_honest_agreement 2 (by decide)
    (fun j => ⟨commitOf ((fun j2 =>
      if j2 = 0 then (⟨"a:1", "c0"⟩ : RevealMsg) else ⟨"b:2", "c1"⟩) j)⟩)
    (fun j => j) (fun j => 10 + j)
    (fun j => if j = 0 then (⟨"a:1", "c0"⟩ : RevealMsg) else ⟨"b:2", "c1"⟩)
    (fun j _ => rfl)
    (by
      intro j hj
      interval_cases j
      · exact ⟨⟨"a", 1⟩, rfl⟩
      · exact ⟨⟨"b", 2⟩, rfl⟩)
    0 1 (by decide) (by decide)

/-! ## Claim C2 (corrected): blame on commitment mismatch -/

set_option maxRecDepth 100000 in
/-- C2 counterexample: with party 1 guilty of a commitment mismatch but
party 2 advertising an unparseable DNS name, party 0's result is an
invalid-DNS-name error, not the `CommitmentMismatch` error the claim
requires whenever some party is guilty. -/
theorem c2_counterexample :
    (c2cexCommits 1).commitment ≠ commitOf (c2cexReveals 1) ∧
    isMismatchErr (mpc_config_exchange 0 3 ⟨"a:1", "c0"⟩ c2cexCommits (fun j => j)
      c2cexReveals (fun j => 10 + j)) = false ∧
    isInvalidDnsErr (mpc_config_exchange 0 3 ⟨"a:1", "c0"⟩ c2cexCommits (fun j => j)
      c2cexReveals (fun j => 10 + j)) = true := by
  refine ⟨by decide, by decide, by decide⟩

/-- C2 amended: provided the local DNS name parses and every
commit-matching remote party's DNS name parses, any commitment mismatch by
a party `j ≠ i` makes the result exactly the `CommitmentMismatch` error
whose blame list holds, for precisely every guilty party, a blame carrying
that party's index and the transcript identifiers of its commit and reveal
messages; the protocol never returns a success map in that case. -/
theorem c2_blame_all_guilty (i n : Nat) (lc : RevealMsg)
    (commits : Nat → CommitMsg) (commitIds : Nat → Nat)
    (reveals : Nat → RevealMsg) (revealIds : Nat → Nat) (la : Address)
    (hla : parse_dns_name lc.dns_name = .ok la)
    (hok : ∀ j, j < n → j ≠ i → (commits j).commitment = commitOf (reveals j) →
      ∃ a, parse_dns_name (reveals j).dns_name = .ok a)
    (j : Nat) (hj : j < n) (hji : j ≠ i)
    (hbad : (commits j).commitment ≠ commitOf (reveals j)) :
    ∃ blames,
      mpc_config_exchange i n lc commits commitIds reveals revealIds =
        .error (.CommitmentMismatch blames) ∧
      (∀ k, (⟨k, commitIds k, revealIds k⟩ : Blame) ∈ blames ↔
        (k < n ∧ k ≠ i ∧ (commits k).commitment ≠ commitOf (reveals k))) ∧
      (∀ b ∈ blames,
        b = ⟨b.guilty_party, commitIds b.guilty_party, revealIds b.guilty_party⟩) := by
  have hjmem : (⟨j, commitIds j, revealIds j⟩ : Blame) ∈
      glist i commits commitIds revealIds reveals (List.range n) :=
    (mem_glist i commits commitIds revealIds reveals (List.range n) _).mpr
      ⟨List.mem_range.mpr hj, hji, hbad, rfl⟩
  have hne : glist i commits commitIds revealIds reveals (List.range n) ≠ [] :=
    List.ne_nil_of_mem hjmem
  rw [mpc_config_exchange_eq i n lc commits commitIds reveals revealIds la hla hok,
    if_neg hne]
  refine ⟨_, rfl, ?_, ?_⟩
  · intro k
    rw [mem_glist]
    constructor
    · rintro ⟨hm, hki, hkcm, -⟩
      exact ⟨List.mem_range.mp hm, hki, hkcm⟩
    · rintro ⟨hkn, hki, hkcm⟩
      exact ⟨List.mem_range.mpr hkn, hki, hkcm, rfl⟩
  · intro b hb
    exact ((mem_glist i commits commitIds revealIds reveals (List.range n) b).mp hb).2.2.2

/-- C2 witness: a two-party transcript where party 1's commitment is empty
and so cannot match; party 0 gets a `CommitmentMismatch` whose blame list
names exactly party 1 with its transcript message identifiers. -/
theorem c2_witness :
    ∃ blames,
      mpc_config_exchange 0 2 ⟨"a:1", "c0"⟩ (fun _ => ⟨[]⟩) (fun j => j)
        (fun _ => ⟨"b:2", "c1"⟩) (fun j => 10 + j) =
        .error (.CommitmentMismatch blames) ∧
      (∀ k, (⟨k, k, 10 + k⟩ : Blame) ∈ blames ↔
        (k < 2 ∧ k ≠ 0 ∧ ((⟨[]⟩ : CommitMsg)).commitment ≠
          commitOf (⟨"b:2", "c1"⟩ : RevealMsg))) ∧
      (∀ b ∈ blames, b = ⟨b.guilty_party, b.guilty_party, 10 + b.guilty_party⟩) :=
  c2_blame_all_guilty 0 2 ⟨"a:1", "c0"⟩ (fun _ => ⟨[]⟩) (fun j => j)
    (fun _ => ⟨"b:2", "c1"⟩) (fun j => 10 + j) ⟨"a", 1⟩ rfl
    (fun _ _ _ _ => ⟨⟨"b", 2⟩, rfl⟩) 1 (by decide) (by decide) (by decide)

end ZkSaas
